import Mathlib

/-!
# Verification of the SuperCompose superquadric mesh generator and JSON persistence

Shallow embedding, over the reals, of the in-scope code of the repository:

* `generate_superquadric_mesh` (src/gui_rot.py, lines 75-93): closed-form
  superquadric surface sampling plus grid triangulation;
* `save_object` (src/gui_rot.py, lines 924-962): the JSON "superquadrics" save
  format, including the zero-semi-axis filter and the 2-decimal rounding of
  the shape exponents;
* `load_superquadrics` (src/gui_rot.py, lines 57-72): the JSON loader, which
  reads the `components` key of a top-level object.

NumPy floating-point arrays are modelled as lists of real numbers; `np.sign`,
`np.abs`, `**` (element-wise power) become `npSign`, `|·|`, `Real.rpow`.
`np.meshgrid(A, B)` with its default `indexing='xy'` returns matrices `P, T`
of shape `(len B, len A)` with `P[i][j] = A[j]` and `T[i][j] = B[i]`; a
row-major `flatten` therefore puts `(A[j], B[i])` at flat index `i * len A + j`.
-/

open Real List

/-- `np.sign` over the reals: `-1` for negatives, `0` at `0`, `1` for positives. -/
noncomputable def npSign (v : ℝ) : ℝ :=
  if v < 0 then -1 else if v = 0 then 0 else 1

/-- Sign-preserving power `sign(v) * |v|^e`, exactly the expression
`np.sign(v) * np.abs(v)**e` used for each trigonometric factor in
`generate_superquadric_mesh` (src/gui_rot.py lines 80-82). -/
noncomputable def spow (v e : ℝ) : ℝ :=
  npSign v * |v| ^ e

/-- `np.linspace a b n` at index `i`: `a + (b - a) * i / (n - 1)`
(uniform sampling of `[a, b]` inclusive, `n ≥ 2` samples). -/
noncomputable def linspace (a b : ℝ) (n i : ℕ) : ℝ :=
  a + (b - a) * i / ((n : ℝ) - 1)

/-- The `phi` samples: `np.linspace(-np.pi / 2, np.pi / 2, num_points)`. -/
noncomputable def phiSample (n j : ℕ) : ℝ :=
  linspace (-(π / 2)) (π / 2) n j

/-- The `theta` samples: `np.linspace(-np.pi, np.pi, num_points)`. -/
noncomputable def thetaSample (n i : ℕ) : ℝ :=
  linspace (-π) π n i

/-- One surface point of the superquadric, the element-wise body of lines
80-82 of src/gui_rot.py:
`x = a1 * sign(cos φ)|cos φ|^ε₁ * sign(cos θ)|cos θ|^ε₂`,
`y = a2 * sign(cos φ)|cos φ|^ε₁ * sign(sin θ)|sin θ|^ε₂`,
`z = a3 * sign(sin φ)|sin φ|^ε₁`. -/
noncomputable def superquadricPoint (a1 a2 a3 e1 e2 phi theta : ℝ) : ℝ × ℝ × ℝ :=
  (a1 * spow (Real.cos phi) e1 * spow (Real.cos theta) e2,
   a2 * spow (Real.cos phi) e1 * spow (Real.sin theta) e2,
   a3 * spow (Real.sin phi) e1)

/-- `generate_superquadric_mesh(a1, a2, a3, epsilon1, epsilon2, num_points)`
(src/gui_rot.py lines 75-93).

Vertices: `phi, theta = np.meshgrid(linspace(-π/2, π/2, n), linspace(-π, π, n))`
uses meshgrid's default `'xy'` indexing, so `phi[i][j] = phiSample n j` and
`theta[i][j] = thetaSample n i`; the coordinate arrays are flattened row-major
and stacked, so the vertex at flat index `i * n + j` is
`superquadricPoint a1 a2 a3 e1 e2 (phiSample n j) (thetaSample n i)`.

Faces: for `i` and `j` ranging over `range (num_points - 1)` (outer loop `i`,
inner loop `j`), with `idx = i * num_points + j`, the two triangles
`[idx, idx + 1, idx + n]` and `[idx + 1, idx + n + 1, idx + n]` are appended. -/
noncomputable def generate_superquadric_mesh (a1 a2 a3 epsilon1 epsilon2 : ℝ)
    (num_points : ℕ) : List (ℝ × ℝ × ℝ) × List (ℕ × ℕ × ℕ) :=
  ((List.range num_points).flatMap fun i =>
      (List.range num_points).map fun j =>
        superquadricPoint a1 a2 a3 epsilon1 epsilon2
          (phiSample num_points j) (thetaSample num_points i),
   (List.range (num_points - 1)).flatMap fun i =>
      (List.range (num_points - 1)).flatMap fun j =>
        [(i * num_points + j, i * num_points + j + 1, i * num_points + j + num_points),
         (i * num_points + j + 1, i * num_points + j + num_points + 1,
          i * num_points + j + num_points)])

section FlatMapIndexing

variable {α β : Type}

/-- Length of a `flatMap` whose blocks all have the same length `c`. -/
theorem length_flatMap_const (l : List α) (g : α → List β) (c : ℕ)
    (h : ∀ a, (g a).length = c) : (l.flatMap g).length = l.length * c := by
  induction l with
  | nil => simp
  | cons a l ih =>
      simp only [List.flatMap_cons, List.length_append, ih, List.length_cons, h]
      ring

/-- Indexing into a `flatMap` whose blocks all have the same length `c`:
the element at `i * c + j` is element `j` of block `i`. -/
theorem getElem?_flatMap_const (l : List α) (g : α → List β) (c : ℕ)
    (h : ∀ a, (g a).length = c) (i j : ℕ) (hj : j < c) :
    ∀ (hi : i < l.length), (l.flatMap g)[i * c + j]? = (g (l.get ⟨i, hi⟩))[j]? := by
  induction l generalizing i with
  | nil => intro hi; simp at hi
  | cons a l ih =>
      intro hi
      rw [List.flatMap_cons]
      cases i with
      | zero =>
          rw [Nat.zero_mul, Nat.zero_add,
            List.getElem?_append_left (by rw [h a]; exact hj)]
          rfl
      | succ i =>
          have hlen : (g a).length ≤ (i + 1) * c + j := by
            rw [h a, Nat.succ_mul]
            omega
          rw [List.getElem?_append_right hlen, h a]
          have harith : (i + 1) * c + j - c = i * c + j := by
            rw [Nat.succ_mul]; omega
          rw [harith]
          exact ih i (Nat.lt_of_succ_lt_succ hi)

end FlatMapIndexing

/-- The vertex list has `n * n` entries. -/
theorem vertices_length (a1 a2 a3 e1 e2 : ℝ) (n : ℕ) :
    (generate_superquadric_mesh a1 a2 a3 e1 e2 n).1.length = n * n := by
  unfold generate_superquadric_mesh
  rw [length_flatMap_const _ _ n (fun a => by simp), List.length_range]

/-- The vertex at flat index `i * n + j` is the superquadric point at
`(phiSample n j, thetaSample n i)`. -/
theorem vertex_at (a1 a2 a3 e1 e2 : ℝ) (n i j : ℕ) (hi : i < n) (hj : j < n) :
    (generate_superquadric_mesh a1 a2 a3 e1 e2 n).1[i * n + j]? =
      some (superquadricPoint a1 a2 a3 e1 e2 (phiSample n j) (thetaSample n i)) := by
  unfold generate_superquadric_mesh
  rw [getElem?_flatMap_const _ _ n (fun a => by simp) i j hj (by simpa using hi)]
  rw [List.getElem?_map, List.getElem?_range hj, List.get_eq_getElem,
    List.getElem_range]
  rfl

/-- Length of the inner (fixed-`i`) block of the face list. -/
theorem innerFaces_length (n i : ℕ) :
    ((List.range (n - 1)).flatMap fun j =>
      ([(i * n + j, i * n + j + 1, i * n + j + n),
        (i * n + j + 1, i * n + j + n + 1, i * n + j + n)] : List (ℕ × ℕ × ℕ))).length =
      (n - 1) * 2 := by
  have h := length_flatMap_const (List.range (n - 1)) (fun j =>
    ([(i * n + j, i * n + j + 1, i * n + j + n),
      (i * n + j + 1, i * n + j + n + 1, i * n + j + n)] : List (ℕ × ℕ × ℕ))) 2
    (fun j => rfl)
  simpa using h

/-- The face list has `(n-1) * ((n-1) * 2)` entries. -/
theorem faces_length (a1 a2 a3 e1 e2 : ℝ) (n : ℕ) :
    (generate_superquadric_mesh a1 a2 a3 e1 e2 n).2.length = (n - 1) * ((n - 1) * 2) := by
  unfold generate_superquadric_mesh
  have h := length_flatMap_const (List.range (n - 1)) (fun i =>
    (List.range (n - 1)).flatMap fun j =>
      ([(i * n + j, i * n + j + 1, i * n + j + n),
        (i * n + j + 1, i * n + j + n + 1, i * n + j + n)] : List (ℕ × ℕ × ℕ)))
    ((n - 1) * 2) (fun i => innerFaces_length n i)
  simpa using h

/-- The two faces emitted for grid cell `(i, j)` sit at positions
`2 * (i * (n-1) + j)` and `2 * (i * (n-1) + j) + 1` of the face list. -/
theorem faces_at (a1 a2 a3 e1 e2 : ℝ) (n i j : ℕ) (hi : i < n - 1) (hj : j < n - 1) :
    (generate_superquadric_mesh a1 a2 a3 e1 e2 n).2[2 * (i * (n - 1) + j)]? =
      some (i * n + j, i * n + j + 1, i * n + j + n) ∧
    (generate_superquadric_mesh a1 a2 a3 e1 e2 n).2[2 * (i * (n - 1) + j) + 1]? =
      some (i * n + j + 1, i * n + j + n + 1, i * n + j + n) := by
  unfold generate_superquadric_mesh
  have hidx0 : 2 * (i * (n - 1) + j) = i * ((n - 1) * 2) + (j * 2 + 0) := by ring
  have hidx1 : 2 * (i * (n - 1) + j) + 1 = i * ((n - 1) * 2) + (j * 2 + 1) := by ring
  have houter := getElem?_flatMap_const (List.range (n - 1)) (fun a =>
    (List.range (n - 1)).flatMap fun b =>
      ([(a * n + b, a * n + b + 1, a * n + b + n),
        (a * n + b + 1, a * n + b + n + 1, a * n + b + n)] : List (ℕ × ℕ × ℕ)))
    ((n - 1) * 2) (fun a => innerFaces_length n a) i
  have hinner := getElem?_flatMap_const (List.range (n - 1)) (fun b =>
    ([(i * n + b, i * n + b + 1, i * n + b + n),
      (i * n + b + 1, i * n + b + n + 1, i * n + b + n)] : List (ℕ × ℕ × ℕ)))
    2 (fun b => rfl) j
  constructor
  · rw [hidx0, houter (j * 2 + 0) (by omega) (by simpa using hi),
      List.get_eq_getElem, List.getElem_range]
    rw [hinner 0 (by omega) (by simpa using hj),
      List.get_eq_getElem, List.getElem_range]
    rfl
  · rw [hidx1, houter (j * 2 + 1) (by omega) (by simpa using hi),
      List.get_eq_getElem, List.getElem_range]
    rw [hinner 1 (by omega) (by simpa using hj),
      List.get_eq_getElem, List.getElem_range]
    rfl

/-- A member of the face list comes from some grid cell `(i, j)` with
`i, j < n - 1`. -/
theorem mem_faces (a1 a2 a3 e1 e2 : ℝ) (n : ℕ) (f : ℕ × ℕ × ℕ)
    (hf : f ∈ (generate_superquadric_mesh a1 a2 a3 e1 e2 n).2) :
    ∃ i j, i < n - 1 ∧ j < n - 1 ∧
      (f = (i * n + j, i * n + j + 1, i * n + j + n) ∨
       f = (i * n + j + 1, i * n + j + n + 1, i * n + j + n)) := by
  unfold generate_superquadric_mesh at hf
  simp only [List.mem_flatMap, List.mem_range, List.mem_cons, List.mem_singleton,
    List.not_mem_nil, or_false] at hf
  obtain ⟨i, hi, j, hj, hcase⟩ := hf
  exact ⟨i, j, hi, hj, hcase⟩

/-- `sign(v) * |v| = v`. -/
theorem npSign_mul_abs (v : ℝ) : npSign v * |v| = v := by
  unfold npSign
  rcases lt_trichotomy v 0 with h | h | h
  · rw [if_pos h, abs_of_neg h]; ring
  · rw [h]; simp
  · rw [if_neg (not_lt.mpr h.le), if_neg h.ne', abs_of_pos h]; ring

/-- With exponent `1` the sign-preserving power is the identity. -/
theorem spow_one (v : ℝ) : spow v 1 = v := by
  unfold spow
  rw [Real.rpow_one]
  exact npSign_mul_abs v

theorem abs_npSign_le_one (v : ℝ) : |npSign v| ≤ 1 := by
  unfold npSign
  split_ifs <;> norm_num

/-- For a base in `[-1, 1]` and a nonnegative exponent, the sign-preserving
power stays in `[-1, 1]` (in particular it is a well-defined real number:
only the nonnegative `|v|` is ever raised to the exponent). -/
theorem abs_spow_le_one (v e : ℝ) (hv : |v| ≤ 1) (he : 0 ≤ e) : |spow v e| ≤ 1 := by
  unfold spow
  rw [abs_mul, abs_of_nonneg (Real.rpow_nonneg (abs_nonneg v) e)]
  have h1 := abs_npSign_le_one v
  have h2 := Real.rpow_le_one (abs_nonneg v) hv he
  have h3 := Real.rpow_nonneg (abs_nonneg v) e
  have h4 := abs_nonneg (npSign v)
  nlinarith

/-- Componentwise bound on a superquadric surface point: the coordinates are
bounded by the semi-axes whenever the exponents are nonnegative. -/
theorem abs_superquadricPoint_le (a1 a2 a3 e1 e2 phi theta : ℝ)
    (ha1 : 0 ≤ a1) (ha2 : 0 ≤ a2) (ha3 : 0 ≤ a3) (he1 : 0 ≤ e1) (he2 : 0 ≤ e2) :
    |(superquadricPoint a1 a2 a3 e1 e2 phi theta).1| ≤ a1 ∧
    |(superquadricPoint a1 a2 a3 e1 e2 phi theta).2.1| ≤ a2 ∧
    |(superquadricPoint a1 a2 a3 e1 e2 phi theta).2.2| ≤ a3 := by
  have hc1 := abs_spow_le_one (Real.cos phi) e1 (Real.abs_cos_le_one phi) he1
  have hc2 := abs_spow_le_one (Real.cos theta) e2 (Real.abs_cos_le_one theta) he2
  have hs1 := abs_spow_le_one (Real.sin phi) e1 (Real.abs_sin_le_one phi) he1
  have hs2 := abs_spow_le_one (Real.sin theta) e2 (Real.abs_sin_le_one theta) he2
  have n1 := abs_nonneg (spow (Real.cos phi) e1)
  have n2 := abs_nonneg (spow (Real.cos theta) e2)
  have n4 := abs_nonneg (spow (Real.sin theta) e2)
  have h12 : |spow (Real.cos phi) e1| * |spow (Real.cos theta) e2| ≤ 1 := by
    calc |spow (Real.cos phi) e1| * |spow (Real.cos theta) e2|
        ≤ 1 * |spow (Real.cos theta) e2| := mul_le_mul_of_nonneg_right hc1 n2
      _ = |spow (Real.cos theta) e2| := one_mul _
      _ ≤ 1 := hc2
  have h14 : |spow (Real.cos phi) e1| * |spow (Real.sin theta) e2| ≤ 1 := by
    calc |spow (Real.cos phi) e1| * |spow (Real.sin theta) e2|
        ≤ 1 * |spow (Real.sin theta) e2| := mul_le_mul_of_nonneg_right hc1 n4
      _ = |spow (Real.sin theta) e2| := one_mul _
      _ ≤ 1 := hs2
  refine ⟨?_, ?_, ?_⟩
  · rw [show (superquadricPoint a1 a2 a3 e1 e2 phi theta).1 =
      a1 * spow (Real.cos phi) e1 * spow (Real.cos theta) e2 from rfl,
      abs_mul, abs_mul, abs_of_nonneg ha1, mul_assoc]
    calc a1 * (|spow (Real.cos phi) e1| * |spow (Real.cos theta) e2|)
        ≤ a1 * 1 := mul_le_mul_of_nonneg_left h12 ha1
      _ = a1 := mul_one a1
  · rw [show (superquadricPoint a1 a2 a3 e1 e2 phi theta).2.1 =
      a2 * spow (Real.cos phi) e1 * spow (Real.sin theta) e2 from rfl,
      abs_mul, abs_mul, abs_of_nonneg ha2, mul_assoc]
    calc a2 * (|spow (Real.cos phi) e1| * |spow (Real.sin theta) e2|)
        ≤ a2 * 1 := mul_le_mul_of_nonneg_left h14 ha2
      _ = a2 := mul_one a2
  · rw [show (superquadricPoint a1 a2 a3 e1 e2 phi theta).2.2 =
      a3 * spow (Real.sin phi) e1 from rfl, abs_mul, abs_of_nonneg ha3]
    calc a3 * |spow (Real.sin phi) e1| ≤ a3 * 1 := mul_le_mul_of_nonneg_left hs1 ha3
      _ = a3 := mul_one a3

/-- A member of the vertex list is the surface point of some grid pair. -/
theorem mem_vertices (a1 a2 a3 e1 e2 : ℝ) (n : ℕ) (v : ℝ × ℝ × ℝ)
    (hv : v ∈ (generate_superquadric_mesh a1 a2 a3 e1 e2 n).1) :
    ∃ i j, i < n ∧ j < n ∧
      v = superquadricPoint a1 a2 a3 e1 e2 (phiSample n j) (thetaSample n i) := by
  unfold generate_superquadric_mesh at hv
  simp only [List.mem_flatMap, List.mem_range, List.mem_map] at hv
  obtain ⟨i, hi, j, hj, hv⟩ := hv
  exact ⟨i, j, hi, hj, hv.symm⟩

/-- With unit semi-axes and unit exponents the surface point is the usual
spherical parametrization. -/
theorem superquadricPoint_ones (phi theta : ℝ) :
    superquadricPoint 1 1 1 1 1 phi theta =
      (Real.cos phi * Real.cos theta, Real.cos phi * Real.sin theta, Real.sin phi) := by
  unfold superquadricPoint
  simp only [spow_one, one_mul]

/-- The semi-axes act componentwise on the unit-parameter surface point. -/
theorem superquadricPoint_scale (a1 a2 a3 e1 e2 phi theta : ℝ) :
    superquadricPoint a1 a2 a3 e1 e2 phi theta =
      (a1 * (superquadricPoint 1 1 1 e1 e2 phi theta).1,
       a2 * (superquadricPoint 1 1 1 e1 e2 phi theta).2.1,
       a3 * (superquadricPoint 1 1 1 e1 e2 phi theta).2.2) := by
  simp only [superquadricPoint, Prod.mk.injEq]
  refine ⟨by ring, by ring, by ring⟩

theorem phiSample_two_zero : phiSample 2 0 = -(π / 2) := by
  unfold phiSample linspace
  push_cast
  ring

theorem phiSample_two_one : phiSample 2 1 = π / 2 := by
  unfold phiSample linspace
  push_cast
  ring

theorem thetaSample_two_zero : thetaSample 2 0 = -π := by
  unfold thetaSample linspace
  push_cast
  ring

/-- Largest vertex index referenced by the face of a cell `(i, j)`. -/
theorem face_index_bound (n i j : ℕ) (hn : 2 ≤ n) (hi : i < n - 1) (hj : j < n - 1) :
    i * n + j + n + 1 < n ^ 2 := by
  obtain ⟨m, rfl⟩ : ∃ m, n = m + 2 := ⟨n - 2, by omega⟩
  have hi' : i ≤ m := by omega
  have hj' : j ≤ m := by omega
  have h1 : i * (m + 2) ≤ m * (m + 2) := Nat.mul_le_mul_right _ hi'
  nlinarith

/-- C1: for every `a1, a2, a3, e1, e2` and resolution `n ≥ 2`, the vertex
list of `generate_superquadric_mesh` has exactly `n^2` entries and the vertex
at flat index `i * n + j` (the indices `i * n + j` for `i, j < n` cover every
position of the list exactly once) is the closed-form superquadric point
`(a1 * spow(cos φ, e1) * spow(cos θ, e2), a2 * spow(cos φ, e1) * spow(sin θ, e2),
a3 * spow(sin φ, e1))` of the grid pair `(φ, θ) = (phiSample n j, thetaSample n i)`,
with `φ` sampled uniformly over `[-π/2, π/2]` and `θ` over `[-π, π]`: every
vertex is the surface point of one grid pair and each grid pair contributes
exactly one vertex. -/
theorem spec_C1 (a1 a2 a3 e1 e2 : ℝ) (n : ℕ) (hn : 2 ≤ n) :
    (generate_superquadric_mesh a1 a2 a3 e1 e2 n).1.length = n ^ 2 ∧
    ∀ i j, i < n → j < n →
      (generate_superquadric_mesh a1 a2 a3 e1 e2 n).1[i * n + j]? =
        some (superquadricPoint a1 a2 a3 e1 e2 (phiSample n j) (thetaSample n i)) :=
  ⟨by rw [vertices_length]; ring,
   fun i j hi hj => vertex_at a1 a2 a3 e1 e2 n i j hi hj⟩

theorem spec_C1_witness :
    2 ≤ 2 ∧ (generate_superquadric_mesh 1 1 1 1 1 2).1[1 * 2 + 0]? =
      some (superquadricPoint 1 1 1 1 1 (phiSample 2 0) (thetaSample 2 1)) :=
  ⟨by norm_num, (spec_C1 1 1 1 1 1 2 (by norm_num)).2 1 0 (by norm_num) (by norm_num)⟩

/-- C2: for every `a1, a2, a3, e1, e2` and resolution `n ≥ 2`,
`generate_superquadric_mesh` returns exactly `n^2` vertices and
`2*(n-1)^2` faces; in particular `generate_superquadric_mesh 1 1 1 1 1 4`
returns 16 vertices and 18 faces, all of whose coordinates lie within
`[-1, 1]` (every coordinate is a well-defined real number of the model,
so all are finite). -/
theorem spec_C2 (a1 a2 a3 e1 e2 : ℝ) (n : ℕ) (hn : 2 ≤ n) :
    (generate_superquadric_mesh a1 a2 a3 e1 e2 n).1.length = n ^ 2 ∧
    (generate_superquadric_mesh a1 a2 a3 e1 e2 n).2.length = 2 * (n - 1) ^ 2 ∧
    (generate_superquadric_mesh 1 1 1 1 1 4).1.length = 16 ∧
    (generate_superquadric_mesh 1 1 1 1 1 4).2.length = 18 ∧
    ∀ v ∈ (generate_superquadric_mesh 1 1 1 1 1 4).1,
      (-1 ≤ v.1 ∧ v.1 ≤ 1) ∧ (-1 ≤ v.2.1 ∧ v.2.1 ≤ 1) ∧ (-1 ≤ v.2.2 ∧ v.2.2 ≤ 1) := by
  refine ⟨by rw [vertices_length]; ring, by rw [faces_length]; ring,
    by rw [vertices_length], by rw [faces_length], ?_⟩
  intro v hv
  obtain ⟨i, j, hi, hj, rfl⟩ := mem_vertices 1 1 1 1 1 4 v hv
  have h := abs_superquadricPoint_le 1 1 1 1 1 (phiSample 4 j) (thetaSample 4 i)
    (by norm_num) (by norm_num) (by norm_num) (by norm_num) (by norm_num)
  obtain ⟨h1, h2, h3⟩ := h
  exact ⟨abs_le.mp h1, abs_le.mp h2, abs_le.mp h3⟩

theorem spec_C2_witness :
    2 ≤ 4 ∧ (generate_superquadric_mesh 1 1 1 1 1 4).1.length = 16 ∧
      (generate_superquadric_mesh 1 1 1 1 1 4).2.length = 18 :=
  ⟨by norm_num, (spec_C2 1 1 1 1 1 4 (by norm_num)).2.2.1,
   (spec_C2 1 1 1 1 1 4 (by norm_num)).2.2.2.1⟩

/-- C3: for every resolution `n ≥ 2` the face list has `2*(n-1)^2` entries
and consists exactly of, for each grid cell `(i, j)` with `i, j ≤ n-2` and
`idx = i*n + j`, the triangle `(idx, idx+1, idx+n)` at position
`2*(i*(n-1)+j)` and the triangle `(idx+1, idx+n+1, idx+n)` at position
`2*(i*(n-1)+j)+1` (cell-by-cell order; these positions cover the whole list,
so there is no wraparound stitching at the seams). -/
theorem spec_C3 (a1 a2 a3 e1 e2 : ℝ) (n : ℕ) (hn : 2 ≤ n) :
    (generate_superquadric_mesh a1 a2 a3 e1 e2 n).2.length = 2 * (n - 1) ^ 2 ∧
    ∀ i j, i ≤ n - 2 → j ≤ n - 2 →
      (generate_superquadric_mesh a1 a2 a3 e1 e2 n).2[2 * (i * (n - 1) + j)]? =
        some (i * n + j, i * n + j + 1, i * n + j + n) ∧
      (generate_superquadric_mesh a1 a2 a3 e1 e2 n).2[2 * (i * (n - 1) + j) + 1]? =
        some (i * n + j + 1, i * n + j + n + 1, i * n + j + n) :=
  ⟨by rw [faces_length]; ring,
   fun i j hi hj => faces_at a1 a2 a3 e1 e2 n i j (by omega) (by omega)⟩

theorem spec_C3_witness :
    2 ≤ 2 ∧ (generate_superquadric_mesh 1 1 1 1 1 2).2[0]? = some (0, 1, 2) ∧
      (generate_superquadric_mesh 1 1 1 1 1 2).2[1]? = some (1, 3, 2) := by
  have h := (spec_C3 1 1 1 1 1 2 (by norm_num)).2 0 0 (by norm_num) (by norm_num)
  refine ⟨by norm_num, ?_, ?_⟩
  · simpa using h.1
  · simpa using h.2

/-- C4: for every `a1, a2, a3, e1, e2` and resolution `n ≥ 2`, every index
of every face returned by `generate_superquadric_mesh` is `< n^2`, i.e. a
valid index into the vertex list. -/
theorem spec_C4 (a1 a2 a3 e1 e2 : ℝ) (n : ℕ) (hn : 2 ≤ n) :
    ∀ f ∈ (generate_superquadric_mesh a1 a2 a3 e1 e2 n).2,
      f.1 < n ^ 2 ∧ f.2.1 < n ^ 2 ∧ f.2.2 < n ^ 2 := by
  intro f hf
  obtain ⟨i, j, hi, hj, hcase⟩ := mem_faces a1 a2 a3 e1 e2 n f hf
  have hb := face_index_bound n i j hn hi hj
  rcases hcase with rfl | rfl
  · exact ⟨by linarith, by linarith, by linarith⟩
  · exact ⟨by linarith, by linarith, by linarith⟩

theorem spec_C4_witness :
    2 ≤ 2 ∧ (0 < 2 ^ 2 ∧ 1 < 2 ^ 2 ∧ 2 < 2 ^ 2) :=
  ⟨by norm_num, spec_C4 1 1 1 1 1 2 (by norm_num) (0, 1, 2) (by decide)⟩

/-- C6, counterexample: the claim's orientation of the grid is transposed.
At resolution 2 the vertex at flat index `0 * 2 + 1` is NOT the surface
point at `(phiSample 2 0, thetaSample 2 1)` (row = phi sweep, column =
theta sweep, as the claim states): its `z` coordinate is `sin(π/2) = 1`,
while that point has `z = sin(-π/2) = -1`. -/
theorem spec_C6_counterexample :
    (generate_superquadric_mesh 1 1 1 1 1 2).1[0 * 2 + 1]? ≠
      some (superquadricPoint 1 1 1 1 1 (phiSample 2 0) (thetaSample 2 1)) := by
  rw [vertex_at 1 1 1 1 1 2 0 1 (by norm_num) (by norm_num)]
  intro h
  have h' := Option.some.inj h
  have h3 := congrArg (fun p : ℝ × ℝ × ℝ => p.2.2) h'
  simp only [superquadricPoint] at h3
  rw [phiSample_two_one, phiSample_two_zero] at h3
  simp only [spow_one, one_mul, Real.sin_neg, Real.sin_pi_div_two] at h3
  norm_num at h3

/-- C6, amended: the flattened vertex sequence is row-major over the grid
with rows indexed by the THETA sweep and columns by the PHI sweep (the
transpose of the claim's orientation): the vertex at flat index `i * n + j`
is the surface point at `(phiSample n j, thetaSample n i)`. -/
theorem spec_C6 (a1 a2 a3 e1 e2 : ℝ) (n : ℕ) (hn : 2 ≤ n) :
    ∀ i j, i < n → j < n →
      (generate_superquadric_mesh a1 a2 a3 e1 e2 n).1[i * n + j]? =
        some (superquadricPoint a1 a2 a3 e1 e2 (phiSample n j) (thetaSample n i)) :=
  fun i j hi hj => vertex_at a1 a2 a3 e1 e2 n i j hi hj

theorem spec_C6_witness :
    2 ≤ 2 ∧ (generate_superquadric_mesh 1 1 1 1 1 2).1[0 * 2 + 1]? =
      some (superquadricPoint 1 1 1 1 1 (phiSample 2 1) (thetaSample 2 0)) :=
  ⟨by norm_num, spec_C6 1 1 1 1 1 2 (by norm_num) 0 1 (by norm_num) (by norm_num)⟩

/-- C7: with `a1 = a2 = a3 = e1 = e2 = 1` every generated vertex lies exactly
on the unit sphere: `|v| = √(x² + y² + z²) = 1` (exactly, over the reals). -/
theorem spec_C7 (n : ℕ) (hn : 2 ≤ n) :
    ∀ v ∈ (generate_superquadric_mesh 1 1 1 1 1 n).1,
      Real.sqrt (v.1 ^ 2 + v.2.1 ^ 2 + v.2.2 ^ 2) = 1 := by
  intro v hv
  obtain ⟨i, j, hi, hj, rfl⟩ := mem_vertices 1 1 1 1 1 n v hv
  rw [superquadricPoint_ones]
  have h1 := Real.sin_sq_add_cos_sq (phiSample n j)
  have h2 := Real.sin_sq_add_cos_sq (thetaSample n i)
  have h : (Real.cos (phiSample n j) * Real.cos (thetaSample n i)) ^ 2 +
      (Real.cos (phiSample n j) * Real.sin (thetaSample n i)) ^ 2 +
      Real.sin (phiSample n j) ^ 2 = 1 := by
    linear_combination (Real.cos (phiSample n j)) ^ 2 * h2 + h1
  show Real.sqrt ((Real.cos (phiSample n j) * Real.cos (thetaSample n i)) ^ 2 +
      (Real.cos (phiSample n j) * Real.sin (thetaSample n i)) ^ 2 +
      Real.sin (phiSample n j) ^ 2) = 1
  rw [h, Real.sqrt_one]

theorem spec_C7_witness :
    2 ≤ 2 ∧ Real.sqrt ((superquadricPoint 1 1 1 1 1 (phiSample 2 0) (thetaSample 2 0)).1 ^ 2 +
      (superquadricPoint 1 1 1 1 1 (phiSample 2 0) (thetaSample 2 0)).2.1 ^ 2 +
      (superquadricPoint 1 1 1 1 1 (phiSample 2 0) (thetaSample 2 0)).2.2 ^ 2) = 1 :=
  ⟨by norm_num, spec_C7 2 (by norm_num) _ (by
    unfold generate_superquadric_mesh
    simp only [List.mem_flatMap, List.mem_range, List.mem_map]
    exact ⟨0, by norm_num, 0, by norm_num, rfl⟩)⟩

/-- C8: for positive semi-axes, resolution `n ≥ 2` and exponents anywhere in
`[0.1, 1.9]` (the slider's domain, edges included), every coordinate of every
vertex is a well-defined real number bounded by the corresponding semi-axis.
In the real-valued model there is no NaN or complex value to produce: `spow`
only ever raises the nonnegative `|v|` to the exponent, and each coordinate
satisfies `|x| ≤ a1`, `|y| ≤ a2`, `|z| ≤ a3`. -/
theorem spec_C8 (a1 a2 a3 e1 e2 : ℝ) (n : ℕ) (hn : 2 ≤ n)
    (ha1 : 0 < a1) (ha2 : 0 < a2) (ha3 : 0 < a3)
    (he1 : 0.1 ≤ e1 ∧ e1 ≤ 1.9) (he2 : 0.1 ≤ e2 ∧ e2 ≤ 1.9) :
    ∀ v ∈ (generate_superquadric_mesh a1 a2 a3 e1 e2 n).1,
      |v.1| ≤ a1 ∧ |v.2.1| ≤ a2 ∧ |v.2.2| ≤ a3 := by
  intro v hv
  obtain ⟨i, j, hi, hj, rfl⟩ := mem_vertices a1 a2 a3 e1 e2 n v hv
  exact abs_superquadricPoint_le a1 a2 a3 e1 e2 (phiSample n j) (thetaSample n i)
    ha1.le ha2.le ha3.le (by linarith [he1.1]) (by linarith [he2.1])

theorem spec_C8_witness :
    (2 ≤ 2 ∧ (0:ℝ) < 1 ∧ ((0.1:ℝ) ≤ 0.1 ∧ (0.1:ℝ) ≤ 1.9) ∧ ((0.1:ℝ) ≤ 1.9 ∧ (1.9:ℝ) ≤ 1.9)) ∧
    |(superquadricPoint 1 1 1 0.1 1.9 (phiSample 2 0) (thetaSample 2 0)).1| ≤ 1 ∧
    |(superquadricPoint 1 1 1 0.1 1.9 (phiSample 2 0) (thetaSample 2 0)).2.1| ≤ 1 ∧
    |(superquadricPoint 1 1 1 0.1 1.9 (phiSample 2 0) (thetaSample 2 0)).2.2| ≤ 1 :=
  ⟨⟨by norm_num, by norm_num, ⟨by norm_num, by norm_num⟩, ⟨by norm_num, by norm_num⟩⟩,
   spec_C8 1 1 1 0.1 1.9 2 (by norm_num) (by norm_num) (by norm_num) (by norm_num)
     ⟨by norm_num, by norm_num⟩ ⟨by norm_num, by norm_num⟩ _ (by
       unfold generate_superquadric_mesh
       simp only [List.mem_flatMap, List.mem_range, List.mem_map]
       exact ⟨0, by norm_num, 0, by norm_num, rfl⟩)⟩

/-- C10: the face list of `generate_superquadric_mesh` is identical for any
two parameter sets with the same resolution (it depends only on `n`), and
the vertices satisfy the scaling homomorphism: vertex `k` for semi-axes
`(a1, a2, a3)` is the componentwise product `(a1*x, a2*y, a3*z)` of vertex
`k = (x, y, z)` for unit semi-axes and the same exponents. -/
theorem spec_C10 (a1 a2 a3 b1 b2 b3 e1 e2 f1 f2 : ℝ) (n : ℕ) (hn : 2 ≤ n) :
    (generate_superquadric_mesh a1 a2 a3 e1 e2 n).2 =
      (generate_superquadric_mesh b1 b2 b3 f1 f2 n).2 ∧
    ∀ k : ℕ, (generate_superquadric_mesh a1 a2 a3 e1 e2 n).1[k]? =
      ((generate_superquadric_mesh 1 1 1 e1 e2 n).1[k]?).map
        fun v : ℝ × ℝ × ℝ => (a1 * v.1, a2 * v.2.1, a3 * v.2.2) := by
  refine ⟨rfl, fun k => ?_⟩
  by_cases hk : k < n * n
  · have hn0 : 0 < n := by omega
    have hi : k / n < n := (Nat.div_lt_iff_lt_mul hn0).mpr hk
    have hj : k % n < n := Nat.mod_lt _ hn0
    have hk' : k = k / n * n + k % n := by
      rw [Nat.mul_comm, Nat.div_add_mod]
    rw [hk', vertex_at a1 a2 a3 e1 e2 n (k / n) (k % n) hi hj,
      vertex_at 1 1 1 e1 e2 n (k / n) (k % n) hi hj]
    exact congrArg some (superquadricPoint_scale a1 a2 a3 e1 e2 _ _)
  · have h1 : (generate_superquadric_mesh a1 a2 a3 e1 e2 n).1[k]? = none :=
      List.getElem?_eq_none (by rw [vertices_length]; exact Nat.le_of_not_lt hk)
    have h2 : (generate_superquadric_mesh 1 1 1 e1 e2 n).1[k]? = none :=
      List.getElem?_eq_none (by rw [vertices_length]; exact Nat.le_of_not_lt hk)
    rw [h1, h2]
    rfl

theorem spec_C10_witness :
    2 ≤ 2 ∧ (generate_superquadric_mesh 2 3 4 (1/2) (3/2) 2).2 =
      (generate_superquadric_mesh 7 8 9 1 1 2).2 :=
  ⟨by norm_num, (spec_C10 2 3 4 7 8 9 (1/2) (3/2) 1 1 2 (by norm_num)).1⟩

/-- The per-primitive parameter state held by the GUI: the widget values of
class `Superquadric` (src/gui_rot.py lines 96-137) — semi-axes, shape
exponents, position and the 3×3 rotation entries. -/
structure Superquadric where
  a1 : ℝ
  a2 : ℝ
  a3 : ℝ
  e1 : ℝ
  e2 : ℝ
  x : ℝ
  y : ℝ
  z : ℝ
  r11 : ℝ
  r12 : ℝ
  r13 : ℝ
  r21 : ℝ
  r22 : ℝ
  r23 : ℝ
  r31 : ℝ
  r32 : ℝ
  r33 : ℝ

/-- JSON values, as far as the two persistence functions need them. -/
inductive JValue where
  | num (v : ℝ)
  | str (s : String)
  | arr (elems : List JValue)
  | obj (fields : List (String × JValue))

/-- Python's `round(x, 2)`: rounding to the nearest multiple of `0.01`
(Python rounds ties of the underlying binary float to even; over the reals
we take Mathlib's nearest-integer rounding of `100 * x`). -/
noncomputable def pyRound2 (x : ℝ) : ℝ :=
  (round (x * 100) : ℝ) / 100

/-- The `sq_data` record built for one kept entry in `save_object`
(src/gui_rot.py lines 937-943): scale, rotation rows, position, and the
two exponents rounded to 2 decimal places. -/
noncomputable def sqData (sq : Superquadric) : JValue :=
  JValue.obj
    [("scale", JValue.arr [JValue.num sq.a1, JValue.num sq.a2, JValue.num sq.a3]),
     ("rotation", JValue.arr
        [JValue.arr [JValue.num sq.r11, JValue.num sq.r12, JValue.num sq.r13],
         JValue.arr [JValue.num sq.r21, JValue.num sq.r22, JValue.num sq.r23],
         JValue.arr [JValue.num sq.r31, JValue.num sq.r32, JValue.num sq.r33]]),
     ("position", JValue.arr [JValue.num sq.x, JValue.num sq.y, JValue.num sq.z]),
     ("epsilon1", JValue.num (pyRound2 sq.e1)),
     ("epsilon2", JValue.num (pyRound2 sq.e2))]

open Classical in
/-- The `superquadrics` accumulation loop of `save_object` (src/gui_rot.py
lines 928-944): entries with any zero semi-axis are skipped (`continue`),
the others contribute their `sq_data` record, in order. -/
noncomputable def save_superquadrics : List Superquadric → List JValue
  | [] => []
  | sq :: rest =>
      if sq.a1 = 0 ∨ sq.a2 = 0 ∨ sq.a3 = 0 then save_superquadrics rest
      else sqData sq :: save_superquadrics rest

/-- `save_object` (src/gui_rot.py lines 924-962): builds the new entry
`{"description": ..., "superquadrics": [...]}` and appends it to the list
`data` read from the existing file (`[]` when the file does not exist); the
file is rewritten with this top-level LIST of entries. -/
noncomputable def save_object (description : String) (sqs : List Superquadric)
    (data : List JValue) : List JValue :=
  data ++ [JValue.obj [("description", JValue.str description),
                       ("superquadrics", JValue.arr (save_superquadrics sqs))]]

/-- Field lookup in a JSON object's field list (first match). -/
def lookupField : List (String × JValue) → String → Option JValue
  | [], _ => none
  | (k, v) :: rest, key => if k = key then some v else lookupField rest key

/-- Python's `d[key]` on a JSON value: succeeds only on an object holding
the key (on a list or scalar Python raises, modelled as `none`). -/
def jGet : JValue → String → Option JValue
  | JValue.obj fields, key => lookupField fields key
  | _, _ => none

/-- Python's `v[i]` on a JSON array (out of range or non-array raises,
modelled as `none`). -/
def jIndex : JValue → ℕ → Option JValue
  | JValue.arr elems, i => elems[i]?
  | _, _ => none

/-- Requires a JSON number. -/
def jNum : JValue → Option ℝ
  | JValue.num v => some v
  | _ => none

/-- Reads a JSON 3-vector of numbers (`v[0]`, `v[1]`, `v[2]`). -/
def jNum3 (v : JValue) : Option (ℝ × ℝ × ℝ) := do
  let x0 ← jNum (← jIndex v 0)
  let x1 ← jNum (← jIndex v 1)
  let x2 ← jNum (← jIndex v 2)
  pure (x0, x1, x2)

/-- Reads the three rows `rotation[0]`, `rotation[1]`, `rotation[2]` of the
3×3 rotation matrix. -/
def jRows (v : JValue) : Option ((ℝ × ℝ × ℝ) × (ℝ × ℝ × ℝ) × (ℝ × ℝ × ℝ)) := do
  let row0 ← jNum3 (← jIndex v 0)
  let row1 ← jNum3 (← jIndex v 1)
  let row2 ← jNum3 (← jIndex v 2)
  pure (row0, row1, row2)

/-- One iteration of the loop in `load_superquadrics` (src/gui_rot.py lines
62-71): `sq.set_values(scale=component['scale'], position=..., epsilon1=...,
epsilon2=..., rotation=...)`, with `set_values` (lines 118-137) reading
`scale[0..2]`, the epsilons, `position[0..2]` and `rotation[i][j]`. -/
def loadComponent (c : JValue) : Option Superquadric := do
  let scale ← jNum3 (← jGet c "scale")
  let position ← jNum3 (← jGet c "position")
  let e1 ← jNum (← jGet c "epsilon1")
  let e2 ← jNum (← jGet c "epsilon2")
  let rot ← jRows (← jGet c "rotation")
  pure ⟨scale.1, scale.2.1, scale.2.2, e1, e2, position.1, position.2.1, position.2.2,
    rot.1.1, rot.1.2.1, rot.1.2.2, rot.2.1.1, rot.2.1.2.1, rot.2.1.2.2,
    rot.2.2.1, rot.2.2.2.1, rot.2.2.2.2⟩

/-- `load_superquadrics` (src/gui_rot.py lines 57-72): reads
`data['components']` — requiring a top-level OBJECT with a `components`
key — and builds one `Superquadric` per component. -/
def load_superquadrics (data : JValue) : Option (List Superquadric) := do
  let components ← jGet data "components"
  match components with
  | JValue.arr cs => cs.mapM loadComponent
  | _ => none

/-- What a saved entry loads back as: the same state with the two shape
exponents replaced by their saved (2-decimal-rounded) values. -/
noncomputable def roundedExponents (sq : Superquadric) : Superquadric :=
  { sq with e1 := pyRound2 sq.e1, e2 := pyRound2 sq.e2 }

/-- Loading the record saved for one entry recovers the entry with its
exponents rounded. -/
theorem loadComponent_sqData (sq : Superquadric) :
    loadComponent (sqData sq) = some (roundedExponents sq) := rfl

/-- Loading the list of records saved for a run of entries with nonzero
semi-axes recovers them all, exponents rounded. -/
theorem mapM_loadComponent_save (sqs : List Superquadric)
    (h : ∀ sq ∈ sqs, sq.a1 ≠ 0 ∧ sq.a2 ≠ 0 ∧ sq.a3 ≠ 0) :
    (save_superquadrics sqs).mapM loadComponent = some (sqs.map roundedExponents) := by
  induction sqs with
  | nil => rfl
  | cons sq rest ih =>
      have hsq := h sq (List.mem_cons_self _ _)
      rw [save_superquadrics, if_neg (by
        rw [not_or, not_or]
        exact ⟨hsq.1, hsq.2.1, hsq.2.2⟩)]
      rw [List.mapM_cons, loadComponent_sqData,
        ih (fun s hs => h s (List.mem_cons_of_mem _ hs))]
      rfl

/-- An all-ones parameter entry (all semi-axes nonzero). -/
noncomputable def sqOne : Superquadric :=
  ⟨1, 1, 1, 1, 1, 1, 1, 1, 1, 1, 1, 1, 1, 1, 1, 1, 1⟩

/-- C5, counterexample: the save → load round trip fails as composed in the
claim. The non-degenerate entry `sqOne` IS written by `save_object` (first
conjunct), but `load_superquadrics` on the file `save_object` writes — a
top-level ARRAY whose entries keep the parameters under the key
`"superquadrics"` — returns no result at all (second conjunct): the loader
requires a top-level object with a `"components"` key, the format of the
companion export script, not the one `save_object` produces. -/
theorem spec_C5_counterexample :
    save_superquadrics [sqOne] = [sqData sqOne] ∧
    load_superquadrics (JValue.arr (save_object "obj" [sqOne] [])) = none := by
  constructor
  · rw [save_superquadrics, if_neg (by norm_num [sqOne]), save_superquadrics]
  · rfl

/-- C5, amended: reloading the very file written by `save_object` with
`load_superquadrics` fails (see the counterexample); but when the saved
per-entry records are presented under the `"components"` key that
`load_superquadrics` expects, loading succeeds and reproduces, for each
entry with nonzero semi-axes, identical scale, position and rotation
values, and `epsilon1`/`epsilon2` equal to the saved values, i.e. the
originals rounded to 2 decimal places. -/
theorem spec_C5 (sqs : List Superquadric)
    (h : ∀ sq ∈ sqs, sq.a1 ≠ 0 ∧ sq.a2 ≠ 0 ∧ sq.a3 ≠ 0) :
    load_superquadrics (JValue.obj [("components",
        JValue.arr (save_superquadrics sqs))]) =
      some (sqs.map roundedExponents) := by
  have hstep : load_superquadrics
      (JValue.obj [("components", JValue.arr (save_superquadrics sqs))]) =
      (save_superquadrics sqs).mapM loadComponent := rfl
  rw [hstep, mapM_loadComponent_save sqs h]

theorem spec_C5_witness :
    (sqOne.a1 ≠ 0 ∧ sqOne.a2 ≠ 0 ∧ sqOne.a3 ≠ 0) ∧
    load_superquadrics (JValue.obj [("components",
        JValue.arr (save_superquadrics [sqOne]))]) =
      some ([sqOne].map roundedExponents) :=
  ⟨by norm_num [sqOne], spec_C5 [sqOne] (by
    intro sq hsq
    rw [List.mem_singleton] at hsq
    subst hsq
    norm_num [sqOne])⟩

open Classical in
/-- C9: the `"superquadrics"` list written by `save_object` contains exactly
the entries all of whose semi-axes are nonzero, in their original order —
the saved file is the prior data plus one entry whose `"superquadrics"`
field is the `sq_data` image of precisely the filtered entry list. -/
theorem spec_C9 (d : String) (sqs : List Superquadric) (data : List JValue) :
    save_object d sqs data = data ++
      [JValue.obj [("description", JValue.str d),
        ("superquadrics", JValue.arr ((sqs.filter fun sq =>
          decide (¬(sq.a1 = 0 ∨ sq.a2 = 0 ∨ sq.a3 = 0))).map sqData))]] := by
  unfold save_object
  have hcore : ∀ l : List Superquadric, save_superquadrics l =
      (l.filter fun sq => decide (¬(sq.a1 = 0 ∨ sq.a2 = 0 ∨ sq.a3 = 0))).map sqData := by
    intro l
    induction l with
    | nil => rfl
    | cons sq rest ih =>
        by_cases hc : sq.a1 = 0 ∨ sq.a2 = 0 ∨ sq.a3 = 0
        · rw [save_superquadrics, if_pos hc, ih, List.filter_cons,
            if_neg (by simp [hc])]
        · rw [save_superquadrics, if_neg hc, ih, List.filter_cons,
            if_pos (by simp [hc]), List.map_cons]
  rw [hcore]
